import Mathlib

/-!
Shallow embedding of the PDF-to-Supabase vector-store loader
(`PdfVectorLoader` class: table bootstrap, chunk enrichment, batched
upsert with ignore-on-conflict deduplication, and similarity search),
together with theorems settling the specification claims.

External collaborators (PDF loader, text splitter, OpenAI embeddings,
Supabase client, `crypto` digest) are modelled as environment parameters;
the orchestration logic is translated directly from the source.
-/

namespace PdfVectorLoader

/-! ### JavaScript string helpers used by the source's regular expressions -/

/-- JS `\s` character class (ASCII part). -/
def jsWhitespace (c : Char) : Bool :=
  c == ' ' || c == '\t' || c == '\n' || c == '\r' || c == '\x0b' || c == '\x0c'

/-- JS `\w` character class: letters, digits, underscore. -/
def jsWordChar (c : Char) : Bool :=
  c.isAlpha || c.isDigit || c == '_'

/-- Characters not matched by the JS regex `.` (dot): line terminators. -/
def jsLineTerminator (c : Char) : Bool :=
  c == '\n' || c == '\r'

/-- `leadsWith pat l` holds when `pat` is an initial segment of `l`. -/
def leadsWith : List Char → List Char → Bool
  | [], _ => true
  | _ :: _, [] => false
  | p :: ps, c :: cs => p == c && leadsWith ps cs

/-- `scanMatch pat k l` searches every position of `l` for an occurrence
of `pat` whose remaining suffix satisfies `k` — the shape of an anchored
regex literal followed by a continuation. -/
def scanMatch (pat : List Char) (k : List Char → Bool) : List Char → Bool
  | [] => leadsWith pat [] && k []
  | c :: cs =>
      (leadsWith pat (c :: cs) && k (List.drop pat.length (c :: cs))) || scanMatch pat k cs

/-- Substring test, JS `String.prototype.includes`. -/
def containsSub (pat : List Char) (cs : List Char) : Bool :=
  scanMatch pat (fun _ => true) cs

/-- `s.includes(pat)` on strings. -/
def containsStr (s pat : String) : Bool :=
  containsSub pat.toList s.toList

/-- JS `String.prototype.toLowerCase` (ASCII model). -/
def jsToLowerCase (s : String) : String :=
  ⟨s.toList.map Char.toLower⟩

/-- JS `String.prototype.trim`: strip whitespace from both ends. -/
def jsTrim (s : String) : String :=
  ⟨((s.toList.dropWhile jsWhitespace).reverse.dropWhile jsWhitespace).reverse⟩

theorem leadsWith_iff (pat l : List Char) :
    leadsWith pat l = true ↔ ∃ r, l = pat ++ r := by
  induction pat generalizing l with
  | nil => simp [leadsWith]
  | cons p ps ih =>
    cases l with
    | nil => simp [leadsWith]
    | cons c cs =>
      simp only [leadsWith, Bool.and_eq_true, beq_iff_eq, ih, List.cons_append]
      constructor
      · rintro ⟨rfl, r, rfl⟩
        exact ⟨r, rfl⟩
      · rintro ⟨r, h⟩
        cases h
        exact ⟨rfl, r, rfl⟩

theorem scanMatch_iff (pat : List Char) (k : List Char → Bool) (l : List Char) :
    scanMatch pat k l = true ↔ ∃ a r, l = a ++ pat ++ r ∧ k r = true := by
  induction l with
  | nil =>
    simp only [scanMatch, Bool.and_eq_true, leadsWith_iff]
    constructor
    · rintro ⟨⟨r, hr⟩, hk⟩
      rcases List.append_eq_nil.mp hr.symm with ⟨h1, h2⟩
      exact ⟨[], [], by simp [h1, h2], by simpa [h2] using hk⟩
    · rintro ⟨a, r, h, hk⟩
      rcases List.append_eq_nil.mp h.symm with ⟨h1, h2⟩
      rcases List.append_eq_nil.mp h1 with ⟨ha, hp⟩
      exact ⟨⟨[], by simp [hp]⟩, by simpa [h2] using hk⟩
  | cons c cs ih =>
    simp only [scanMatch, Bool.or_eq_true, Bool.and_eq_true, leadsWith_iff, ih]
    constructor
    · rintro (⟨⟨r, hr⟩, hk⟩ | ⟨a, r, h, hk⟩)
      · refine ⟨[], r, by simpa using hr, ?_⟩
        rw [hr] at hk
        simpa [List.drop_left] using hk
      · exact ⟨c :: a, r, by simp [h], hk⟩
    · rintro ⟨a, r, h, hk⟩
      cases a with
      | nil =>
        refine Or.inl ⟨⟨r, by simpa using h⟩, ?_⟩
        simp only [List.nil_append] at h
        rw [h]
        simpa [List.drop_left] using hk
      | cons x xs =>
        right
        rw [List.cons_append, List.cons_append] at h
        injection h with h1 h2
        exact ⟨xs, r, h2, hk⟩

theorem containsSub_iff (pat cs : List Char) :
    containsSub pat cs = true ↔ ∃ a r, cs = a ++ pat ++ r := by
  simp only [containsSub, scanMatch_iff]
  constructor
  · rintro ⟨a, r, h, -⟩; exact ⟨a, r, h⟩
  · rintro ⟨a, r, h⟩; exact ⟨a, r, h, trivial⟩


/-- Splitting a list map along an append of the image. -/
theorem map_eq_append_split {α β : Type} (f : α → β) :
    ∀ (s t : List β) (l : List α), l.map f = s ++ t →
      ∃ u v, l = u ++ v ∧ u.map f = s ∧ v.map f = t := by
  intro s
  induction s with
  | nil =>
    intro t l h
    exact ⟨[], l, rfl, rfl, by simpa using h⟩
  | cons b s2 ih =>
    intro t l h
    cases l with
    | nil => simp at h
    | cons x l2 =>
      simp only [List.map_cons, List.cons_append, List.cons.injEq] at h
      obtain ⟨hb, hrest⟩ := h
      obtain ⟨u, v, hl, hu, hv⟩ := ih t l2 hrest
      exact ⟨x :: u, v, by simp [hl], by simp [hu, hb], hv⟩

/-! ### `detectCodeSnippet` — the eight regex heuristics of the source -/

/-- The triple-backtick fence delimiter. -/
def fenceDelim : List Char := "```".toList

/-- Regex `/```[\s\S]*?```/`: a fence, anything, another fence. -/
def fencedBlockPat (cs : List Char) : Bool :=
  scanMatch fenceDelim (fun rest => scanMatch fenceDelim (fun _ => true) rest) cs

/-- Regex `/{[\s\S]*?}/`: an opening brace with a closing brace anywhere after. -/
def braceBlockPat (cs : List Char) : Bool :=
  scanMatch ['\x7b'] (fun rest => rest.contains '\x7d') cs

/-- Regex `/function\s*\(/`. -/
def functionDeclPat (cs : List Char) : Bool :=
  scanMatch "function".toList
    (fun rest =>
      match rest.dropWhile jsWhitespace with
      | '(' :: _ => true
      | _ => false) cs

/-- Regex `/class\s+\w+/`. -/
def classDeclPat (cs : List Char) : Bool :=
  scanMatch "class".toList
    (fun rest =>
      match rest with
      | c :: _ =>
        jsWhitespace c &&
          (match rest.dropWhile jsWhitespace with
           | d :: _ => jsWordChar d
           | [] => false)
      | [] => false) cs

/-- State `.*from` of the import regex: either `from` starts here, or one
more non-line-terminator character is consumed. -/
def dotStarFrom : List Char → Bool
  | [] => false
  | c :: cs => leadsWith "from".toList (c :: cs) || (!jsLineTerminator c && dotStarFrom cs)

/-- State reached inside `\s+` of the import regex: hand over to `.*from`,
or consume one more whitespace character. -/
def importWsTail : List Char → Bool
  | [] => false
  | c :: cs => dotStarFrom (c :: cs) || (jsWhitespace c && importWsTail cs)

/-- Regex `/import\s+.*from/`. -/
def importStmtPat (cs : List Char) : Bool :=
  scanMatch "import".toList
    (fun rest =>
      match rest with
      | c :: cs2 => jsWhitespace c && importWsTail (c :: cs2)
      | [] => false) cs

/-- Common body of `/const\s+\w+\s*=/`, `/let\s+\w+\s*=/`, `/var\s+\w+\s*=/`:
one-plus whitespace, one-plus word characters, optional whitespace, `=`. -/
def declAssignTail (rest : List Char) : Bool :=
  match rest with
  | c :: _ =>
    jsWhitespace c &&
      (match rest.dropWhile jsWhitespace with
       | d :: _ =>
         jsWordChar d &&
           (match (rest.dropWhile jsWhitespace).dropWhile jsWordChar |>.dropWhile jsWhitespace with
            | '=' :: _ => true
            | _ => false)
       | [] => false)
  | [] => false

/-- Regex `/const\s+\w+\s*=/`. -/
def constDeclPat (cs : List Char) : Bool :=
  scanMatch "const".toList declAssignTail cs

/-- Regex `/let\s+\w+\s*=/`. -/
def letDeclPat (cs : List Char) : Bool :=
  scanMatch "let".toList declAssignTail cs

/-- Regex `/var\s+\w+\s*=/`. -/
def varDeclPat (cs : List Char) : Bool :=
  scanMatch "var".toList declAssignTail cs

/-- The source's `codeIndicators` array, in order. -/
def codeIndicators : List (List Char → Bool) :=
  [fencedBlockPat, braceBlockPat, functionDeclPat, classDeclPat,
   importStmtPat, constDeclPat, letDeclPat, varDeclPat]

/-- `detectCodeSnippet(content)`: true when any indicator pattern matches. -/
def detectCodeSnippet (content : String) : Bool :=
  codeIndicators.any (fun pat => pat content.toList)

/-! ### Per-chunk metadata helpers -/

/-- `doc_type` classification:
`source.toLowerCase().includes('reporting') ? 'reporting_guide' : 'release_notes'`. -/
def docTypeOf (source : String) : String :=
  if containsStr (jsToLowerCase source) "reporting" then "reporting_guide" else "release_notes"

/-- Count of maximal whitespace runs; `inRun` records whether the previous
character was whitespace. -/
def countWsRunsAux : Bool → List Char → Nat
  | _, [] => 0
  | inRun, c :: cs =>
      if jsWhitespace c then (if inRun then 0 else 1) + countWsRunsAux true cs
      else countWsRunsAux false cs

/-- JS `content.split(/\s+/).length`: one more than the number of maximal
whitespace runs (split keeps empty edge segments). -/
def estimatedWordCount (s : String) : Nat :=
  countWsRunsAux false s.toList + 1

/-- `path.basename`: the final path component. -/
def basenameOf (s : String) : String :=
  (s.splitOn "/").getLastD s

/-- JS `loc?.pageNumber || absoluteIndex + 1` — falls back when `loc` is
absent or `pageNumber` is falsy (zero). -/
structure PageLoc where
  pageNumber : Nat
deriving DecidableEq, Repr

/-- Loader-provided chunk metadata (`chunk.metadata`), passed through as
`original_metadata`. -/
structure ChunkMeta where
  loc : Option PageLoc
deriving DecidableEq, Repr

/-- A langchain `Document` as the splitter produces it. -/
structure Chunk where
  pageContent : String
  metadata : ChunkMeta
deriving DecidableEq, Repr

/-- `chunk.metadata.loc?.pageNumber || absoluteIndex + 1`. -/
def pageNumberOf (m : ChunkMeta) (absoluteIndex : Nat) : Nat :=
  match m.loc with
  | some l => if l.pageNumber = 0 then absoluteIndex + 1 else l.pageNumber
  | none => absoluteIndex + 1

/-! ### Data model of the ingestion pipeline -/

/-- The source's `batchSize = 20`. -/
def batchSize : Nat := 20

/-- The source's `subBatchSize = 5`. -/
def subBatchSize : Nat := 5

/-- The `metadata` object built for each chunk. -/
structure RecordMeta where
  chunk_hash : String
  doc_id : String
  source_file : String
  file_path : String
  file_type : String
  doc_type : String
  page_number : Nat
  chunk_index : Nat
  total_chunks : Nat
  processed_at : String
  model_version : String
  chunk_size : Nat
  original_metadata : ChunkMeta
  estimated_word_count : Nat
  contains_code : Bool
  status : String
  version : String
deriving DecidableEq, Repr

/-- The row upserted into the store. `Emb` abstracts the embedding vector. -/
structure Record (Emb : Type) where
  content : String
  embedding : Emb
  metadata : RecordMeta
  source : String
  chunk_hash : String
deriving DecidableEq, Repr

/-- Error surfaced by an embedding call. -/
structure EmbedErr where
  message : String
deriving DecidableEq, Repr

/-- Error surfaced by the store on upsert (PostgREST shape: code and message). -/
structure StoreErr where
  code : String
  message : String
deriving DecidableEq, Repr

/-- Errors the ingestion run can abort with: a re-thrown embedding error, or
the wrapped `Failed to store batch: ...` error. -/
inductive RunError where
  | embedding (message : String)
  | storeBatch (message : String)
deriving DecidableEq, Repr

/-- Environment of one ingestion run. Calls are keyed deterministically:
`clock`, `randHex`, `isoNow` and `embed` by the chunk's absolute index,
`upsert` by the batch's starting offset. -/
structure RunEnv (Emb : Type) where
  clock : Nat → Nat
  randHex : Nat → String
  isoNow : Nat → String
  embed : Nat → Except EmbedErr Emb
  upsert : Nat → Option StoreErr

/-- Metadata construction for the chunk at absolute index `k`, translated
field by field from `processAndStoreChunks`. `hashFn` abstracts the SHA-256
hex digest `generateHash`. -/
def enrichMeta (hashFn : String → String) {Emb : Type} (env : RunEnv Emb)
    (source modelName : String) (total k : Nat) (c : Chunk) : RecordMeta :=
  { chunk_hash := hashFn (c.pageContent ++ toString (env.clock k)),
    doc_id := "doc_" ++ toString (env.clock k) ++ "_" ++ env.randHex k,
    source_file := basenameOf source,
    file_path := source,
    file_type := "pdf",
    doc_type := docTypeOf source,
    page_number := pageNumberOf c.metadata k,
    chunk_index := k,
    total_chunks := total,
    processed_at := env.isoNow k,
    model_version := modelName,
    chunk_size := c.pageContent.length,
    original_metadata := c.metadata,
    estimated_word_count := estimatedWordCount c.pageContent,
    contains_code := detectCodeSnippet c.pageContent,
    status := "processed",
    version := "1.0" }

/-- The row returned for one chunk of a sub-batch (content, embedding,
metadata, source, `chunk_hash` copied from the metadata). -/
def enrichRecord (hashFn : String → String) {Emb : Type} (env : RunEnv Emb)
    (source modelName : String) (total k : Nat) (c : Chunk) (v : Emb) : Record Emb :=
  { content := c.pageContent,
    embedding := v,
    metadata := enrichMeta hashFn env source modelName total k c,
    source := source,
    chunk_hash := (enrichMeta hashFn env source modelName total k c).chunk_hash }

/-- The message fragment the catch clause tests for. -/
def dupPhrase : String := "duplicate key value"

/-- `error.message.includes('duplicate key value')`. -/
def hasDupPhrase (msg : String) : Bool :=
  containsStr msg dupPhrase

/-- The store's duplicate-key detection as the source performs it: PostgreSQL
unique-violation code `23505` at the upsert check, or the duplicate-key phrase
in the thrown (wrapped) message at the catch clause. -/
def isDuplicateViolation (e : StoreErr) : Bool :=
  e.code == "23505" || hasDupPhrase ("Failed to store batch: " ++ e.message)

/-- Server-side semantics of `upsert(..., { onConflict: 'chunk_hash',
ignoreDuplicates: true })`: rows are inserted in order, a row whose
`chunk_hash` already appears (in the table or earlier in the command)
is skipped, never overwritten. -/
def upsertIgnoreDuplicates {Emb : Type} (store batch : List (Record Emb)) : List (Record Emb) :=
  batch.foldl
    (fun acc r => if acc.any (fun x => x.chunk_hash == r.chunk_hash) then acc else acc ++ [r])
    store

/-- `Promise.all` over one sub-batch starting at absolute index `base`:
every chunk is embedded once; the first failure aborts with that error. -/
def embedSubBatch (hashFn : String → String) {Emb : Type} (env : RunEnv Emb)
    (source modelName : String) (total : Nat) :
    Nat → List Chunk → Except EmbedErr (List (Record Emb))
  | _, [] => .ok []
  | base, c :: cs =>
    match env.embed base with
    | .error e => .error e
    | .ok v =>
      match embedSubBatch hashFn env source modelName total (base + 1) cs with
      | .error e => .error e
      | .ok rs => .ok (enrichRecord hashFn env source modelName total base c v :: rs)

/-- The inner `for (j ...; j += subBatchSize)` loop of one batch starting at
offset `i`: embeds sub-batches of five in order, aborting on the first
sub-batch failure; successful sub-batches accumulate into `batchData`. -/
def embedBatchGo (hashFn : String → String) {Emb : Type} (env : RunEnv Emb)
    (source modelName : String) (total i : Nat) :
    Nat → List Chunk → Except EmbedErr (List (Record Emb))
  | _, [] => .ok []
  | j, c :: cs =>
    match embedSubBatch hashFn env source modelName total (i + j) ((c :: cs).take subBatchSize) with
    | .error e => .error e
    | .ok rs =>
      match embedBatchGo hashFn env source modelName total i (j + subBatchSize) ((c :: cs).drop subBatchSize) with
      | .error e => .error e
      | .ok rs2 => .ok (rs ++ rs2)
  termination_by _ l => l.length
  decreasing_by simp [List.length_drop, subBatchSize]; omega

/-- The outer `for (i ...; i += batchSize)` loop of `processAndStoreChunks`.
`state` is the store's table contents; on a fatal abort the error carries the
rows durably written before the failure point (nothing is rolled back).
Per batch: an embedding failure is re-thrown unless its message carries the
duplicate-key phrase; an upsert error with code `23505` is ignored; any other
upsert error is thrown wrapped as `Failed to store batch: ...` and re-thrown
by the catch clause unless that wrapped message carries the phrase. -/
def runBatchesAux (hashFn : String → String) {Emb : Type} (env : RunEnv Emb)
    (source modelName : String) (total : Nat) :
    List (Record Emb) → Nat → List Chunk →
      Except (RunError × List (Record Emb)) (List (Record Emb))
  | state, _, [] => .ok state
  | state, i, c :: cs =>
    match embedBatchGo hashFn env source modelName total i 0 ((c :: cs).take batchSize) with
    | .error e =>
      if hasDupPhrase e.message then
        runBatchesAux hashFn env source modelName total state (i + batchSize) ((c :: cs).drop batchSize)
      else
        .error (.embedding e.message, state)
    | .ok records =>
      match env.upsert i with
      | none =>
        runBatchesAux hashFn env source modelName total
          (upsertIgnoreDuplicates state records) (i + batchSize) ((c :: cs).drop batchSize)
      | some err =>
        if err.code == "23505" then
          runBatchesAux hashFn env source modelName total state (i + batchSize) ((c :: cs).drop batchSize)
        else if hasDupPhrase ("Failed to store batch: " ++ err.message) then
          runBatchesAux hashFn env source modelName total state (i + batchSize) ((c :: cs).drop batchSize)
        else
          .error (.storeBatch ("Failed to store batch: " ++ err.message), state)
  termination_by _ _ l => l.length
  decreasing_by all_goals (simp [List.length_drop, batchSize]; omega)

/-- `processAndStoreChunks(chunks, tableName, source)` on an empty table:
`total_chunks` is the length of the chunk list it receives. -/
def processAndStoreChunks (hashFn : String → String) {Emb : Type} (env : RunEnv Emb)
    (source modelName : String) (chunks : List Chunk) :
    Except (RunError × List (Record Emb)) (List (Record Emb)) :=
  runBatchesAux hashFn env source modelName chunks.length [] 0 chunks

/-- The chunk filter of `loadPdfsToVectorStore`: a chunk is skipped when its
`pageContent` is falsy or trims to length zero. -/
def isValidChunk (c : Chunk) : Bool :=
  !(c.pageContent == "" || (jsTrim c.pageContent).length == 0)

/-- `chunks.filter(...)` — the valid chunks of one document. -/
def validChunks (chunks : List Chunk) : List Chunk :=
  chunks.filter isValidChunk

/-- The per-document tail of `loadPdfsToVectorStore`: filter the split
chunks, then process and store the valid ones. -/
def loadOneDoc (hashFn : String → String) {Emb : Type} (env : RunEnv Emb)
    (source modelName : String) (rawChunks : List Chunk) :
    Except (RunError × List (Record Emb)) (List (Record Emb)) :=
  processAndStoreChunks hashFn env source modelName (validChunks rawChunks)

/-- Pure enumeration of the enriched records of a run whose embedding calls
all succeed with values `v`, starting at absolute index `k`. -/
def enrichFrom (hashFn : String → String) {Emb : Type} (env : RunEnv Emb)
    (source modelName : String) (total : Nat) (v : Nat → Emb) :
    Nat → List Chunk → List (Record Emb)
  | _, [] => []
  | k, c :: cs =>
      enrichRecord hashFn env source modelName total k c (v k) ::
        enrichFrom hashFn env source modelName total v (k + 1) cs

/-- Consecutive slices of size `n` (the spec-side batching notion). -/
def chunksOf {α : Type} (n : Nat) : List α → List (List α)
  | [] => []
  | c :: cs => (c :: cs.take (n - 1)) :: chunksOf n (cs.drop (n - 1))
  termination_by l => l.length
  decreasing_by simp [List.length_drop]; omega

/-! ### Structural lemmas about the pipeline -/

theorem enrichFrom_length (hashFn : String → String) {Emb : Type} (env : RunEnv Emb)
    (source modelName : String) (total : Nat) (v : Nat → Emb) :
    ∀ (k : Nat) (l : List Chunk),
      (enrichFrom hashFn env source modelName total v k l).length = l.length := by
  intro k l
  induction l generalizing k with
  | nil => rfl
  | cons c cs ih => simp [enrichFrom, ih]

theorem enrichFrom_getElem? (hashFn : String → String) {Emb : Type} (env : RunEnv Emb)
    (source modelName : String) (total : Nat) (v : Nat → Emb) :
    ∀ (k : Nat) (l : List Chunk) (j : Nat),
      (enrichFrom hashFn env source modelName total v k l)[j]? =
        (l[j]?).map (fun c => enrichRecord hashFn env source modelName total (k + j) c (v (k + j))) := by
  intro k l
  induction l generalizing k with
  | nil => intro j; simp [enrichFrom]
  | cons c cs ih =>
    intro j
    cases j with
    | zero => simp [enrichFrom]
    | succ j =>
      have hkj : k + 1 + j = k + (j + 1) := by omega
      simp [enrichFrom, ih (k + 1) j, hkj]

theorem mem_enrichFrom_total (hashFn : String → String) {Emb : Type} (env : RunEnv Emb)
    (source modelName : String) (total : Nat) (v : Nat → Emb) :
    ∀ (k : Nat) (l : List Chunk) (r : Record Emb),
      r ∈ enrichFrom hashFn env source modelName total v k l →
        r.metadata.total_chunks = total := by
  intro k l
  induction l generalizing k with
  | nil => intro r hr; cases hr
  | cons c cs ih =>
    intro r hr
    rcases List.mem_cons.mp hr with h | h
    · subst h; rfl
    · exact ih (k + 1) r h

theorem enrichFrom_take_drop (hashFn : String → String) {Emb : Type} (env : RunEnv Emb)
    (source modelName : String) (total : Nat) (v : Nat → Emb) :
    ∀ (l : List Chunk) (n k : Nat),
      enrichFrom hashFn env source modelName total v k (l.take n) ++
        enrichFrom hashFn env source modelName total v (k + n) (l.drop n) =
      enrichFrom hashFn env source modelName total v k l := by
  intro l
  induction l with
  | nil => intro n k; simp [enrichFrom]
  | cons c cs ih =>
    intro n k
    cases n with
    | zero => simp [enrichFrom]
    | succ n =>
      have hkn : k + (n + 1) = (k + 1) + n := by omega
      simp only [List.take_succ_cons, List.drop_succ_cons, enrichFrom, List.cons_append, hkn,
        ih n (k + 1)]

theorem upsertIgnoreDuplicates_append {Emb : Type} (store b1 b2 : List (Record Emb)) :
    upsertIgnoreDuplicates (upsertIgnoreDuplicates store b1) b2 =
      upsertIgnoreDuplicates store (b1 ++ b2) := by
  simp [upsertIgnoreDuplicates, List.foldl_append]

theorem upsertIgnoreDuplicates_suffix {Emb : Type} :
    ∀ (batch store : List (Record Emb)),
      ∃ added, upsertIgnoreDuplicates store batch = store ++ added := by
  intro batch
  induction batch with
  | nil => intro store; exact ⟨[], by simp [upsertIgnoreDuplicates]⟩
  | cons r rs ih =>
    intro store
    show (∃ added, upsertIgnoreDuplicates
      (if store.any (fun x => x.chunk_hash == r.chunk_hash) then store else store ++ [r]) rs
        = store ++ added)
    by_cases hany : store.any (fun x => x.chunk_hash == r.chunk_hash) = true
    · simpa [hany] using ih store
    · obtain ⟨added, hadd⟩ := ih (store ++ [r])
      refine ⟨[r] ++ added, ?_⟩
      simp only [Bool.not_eq_true] at hany
      simp [hany, hadd]

theorem mem_upsertIgnoreDuplicates {Emb : Type} :
    ∀ (batch store : List (Record Emb)) (r : Record Emb),
      r ∈ upsertIgnoreDuplicates store batch → r ∈ store ∨ r ∈ batch := by
  intro batch
  induction batch with
  | nil => intro store r hr; exact Or.inl hr
  | cons b bs ih =>
    intro store r hr
    show r ∈ store ∨ r ∈ b :: bs
    have hstep : upsertIgnoreDuplicates store (b :: bs) =
        upsertIgnoreDuplicates
          (if store.any (fun x => x.chunk_hash == b.chunk_hash) then store else store ++ [b])
          bs := rfl
    rw [hstep] at hr
    by_cases hany : store.any (fun x => x.chunk_hash == b.chunk_hash) = true
    · rw [if_pos hany] at hr
      rcases ih store r hr with h | h
      · exact Or.inl h
      · exact Or.inr (List.mem_cons.mpr (Or.inr h))
    · rw [if_neg hany] at hr
      rcases ih (store ++ [b]) r hr with h | h
      · rcases List.mem_append.mp h with h | h
        · exact Or.inl h
        · exact Or.inr (List.mem_cons.mpr (Or.inl (List.mem_singleton.mp h)))
      · exact Or.inr (List.mem_cons.mpr (Or.inr h))

/-- Number of stored rows carrying a given `chunk_hash`. -/
def countHash {Emb : Type} (h : String) (l : List (Record Emb)) : Nat :=
  (l.filter (fun r => r.chunk_hash == h)).length

theorem countHash_append {Emb : Type} (h : String) (l1 l2 : List (Record Emb)) :
    countHash h (l1 ++ l2) = countHash h l1 + countHash h l2 := by
  simp [countHash, List.filter_append]

theorem countHash_pos_iff {Emb : Type} (h : String) (l : List (Record Emb)) :
    0 < countHash h l ↔ l.any (fun r => r.chunk_hash == h) = true := by
  simp [countHash, List.length_pos, List.filter_eq_nil_iff, List.any_eq_true]

/-- Exact row count per `chunk_hash` after an ignore-on-conflict upsert:
rows already present keep their count (nothing is overwritten or added for
their hash); a hash new to the store gains exactly one row when the batch
carries it. -/
theorem upsertIgnoreDuplicates_countHash {Emb : Type} (h : String) :
    ∀ (batch store : List (Record Emb)),
      countHash h (upsertIgnoreDuplicates store batch) =
        if 0 < countHash h store then countHash h store
        else if batch.any (fun r => r.chunk_hash == h) then 1 else 0 := by
  intro batch
  induction batch with
  | nil =>
    intro store
    by_cases h0 : 0 < countHash h store
    · simp [upsertIgnoreDuplicates, h0]
    · have : countHash h store = 0 := by omega
      simp [upsertIgnoreDuplicates, h0, this]
  | cons r rs ih =>
    intro store
    have hstep : upsertIgnoreDuplicates store (r :: rs) =
        upsertIgnoreDuplicates
          (if store.any (fun x => x.chunk_hash == r.chunk_hash) then store else store ++ [r])
          rs := rfl
    rw [hstep]
    by_cases hany : store.any (fun x => x.chunk_hash == r.chunk_hash) = true
    · rw [if_pos hany, ih store]
      by_cases h0 : 0 < countHash h store
      · simp [h0]
      · cases hrh : (r.chunk_hash == h) with
        | false => simp [h0, List.any_cons, hrh]
        | true =>
          exfalso
          have hrh2 : r.chunk_hash = h := beq_iff_eq.mp hrh
          refine h0 ?_
          rw [countHash_pos_iff, ← hrh2]
          exact hany
    · rw [if_neg hany, ih (store ++ [r])]
      have hcnt : countHash h (store ++ [r]) =
          countHash h store + (if r.chunk_hash == h then 1 else 0) := by
        rw [countHash_append]
        by_cases hrh : (r.chunk_hash == h) = true
        · simp [countHash, hrh]
        · simp only [Bool.not_eq_true] at hrh
          simp [countHash, hrh]
      cases hrh : (r.chunk_hash == h) with
      | true =>
        have hs0 : countHash h store = 0 := by
          by_contra hne
          have hpos : 0 < countHash h store := Nat.pos_of_ne_zero hne
          have hpos2 := (countHash_pos_iff h store).mp hpos
          have hrh2 : r.chunk_hash = h := beq_iff_eq.mp hrh
          rw [← hrh2] at hpos2
          exact hany hpos2
        have hc1 : countHash h (store ++ [r]) = 1 := by
          rw [hcnt, hs0, hrh]
          simp
        simp [hc1, hs0, List.any_cons, hrh]
      | false =>
        have hc : countHash h (store ++ [r]) = countHash h store := by
          rw [hcnt, hrh]
          simp
        rw [hc]
        simp [List.any_cons, hrh]

theorem embedSubBatch_allOk (hashFn : String → String) {Emb : Type} (env : RunEnv Emb)
    (source modelName : String) (total : Nat) (v : Nat → Emb)
    (hv : ∀ k, env.embed k = .ok (v k)) :
    ∀ (l : List Chunk) (base : Nat),
      embedSubBatch hashFn env source modelName total base l =
        .ok (enrichFrom hashFn env source modelName total v base l) := by
  intro l
  induction l with
  | nil => intro base; rfl
  | cons c cs ih =>
    intro base
    simp [embedSubBatch, hv base, ih (base + 1), enrichFrom]

theorem embedBatchGo_allOk (hashFn : String → String) {Emb : Type} (env : RunEnv Emb)
    (source modelName : String) (total : Nat) (v : Nat → Emb)
    (hv : ∀ k, env.embed k = .ok (v k)) :
    ∀ (n : Nat) (l : List Chunk), l.length ≤ n → ∀ (i j : Nat),
      embedBatchGo hashFn env source modelName total i j l =
        .ok (enrichFrom hashFn env source modelName total v (i + j) l) := by
  intro n
  induction n with
  | zero =>
    intro l hl i j
    have hnil : l = [] := List.length_eq_zero.mp (Nat.le_zero.mp hl)
    subst hnil
    simp [embedBatchGo, enrichFrom]
  | succ n ih =>
    intro l hl i j
    cases l with
    | nil => simp [embedBatchGo, enrichFrom]
    | cons c cs =>
      have hdrop : ((c :: cs).drop subBatchSize).length ≤ n := by
        simp only [List.length_drop, List.length_cons, subBatchSize]
        simp only [List.length_cons] at hl
        omega
      simp only [embedBatchGo,
        embedSubBatch_allOk hashFn env source modelName total v hv,
        ih ((c :: cs).drop subBatchSize) hdrop i (j + subBatchSize)]
      have harith : i + (j + subBatchSize) = (i + j) + subBatchSize := by omega
      rw [harith, enrichFrom_take_drop]

theorem runBatchesAux_allOk (hashFn : String → String) {Emb : Type} (env : RunEnv Emb)
    (source modelName : String) (total : Nat) (v : Nat → Emb)
    (hv : ∀ k, env.embed k = .ok (v k)) (hu : ∀ b, env.upsert b = none) :
    ∀ (n : Nat) (rest : List Chunk), rest.length ≤ n →
      ∀ (state : List (Record Emb)) (i : Nat),
        runBatchesAux hashFn env source modelName total state i rest =
          .ok (upsertIgnoreDuplicates state
                 (enrichFrom hashFn env source modelName total v i rest)) := by
  intro n
  induction n with
  | zero =>
    intro rest hl state i
    have hnil : rest = [] := List.length_eq_zero.mp (Nat.le_zero.mp hl)
    subst hnil
    simp [runBatchesAux, enrichFrom, upsertIgnoreDuplicates]
  | succ n ih =>
    intro rest hl state i
    cases rest with
    | nil => simp [runBatchesAux, enrichFrom, upsertIgnoreDuplicates]
    | cons c cs =>
      have hdrop : ((c :: cs).drop batchSize).length ≤ n := by
        simp only [List.length_drop, List.length_cons, batchSize]
        simp only [List.length_cons] at hl
        omega
      have hbatch := embedBatchGo_allOk hashFn env source modelName total v hv
        ((c :: cs).take batchSize).length ((c :: cs).take batchSize) le_rfl i 0
      rw [Nat.add_zero] at hbatch
      simp only [runBatchesAux, hbatch, hu i,
        ih ((c :: cs).drop batchSize) hdrop
          (upsertIgnoreDuplicates state
            (enrichFrom hashFn env source modelName total v i ((c :: cs).take batchSize)))
          (i + batchSize)]
      rw [upsertIgnoreDuplicates_append, enrichFrom_take_drop]

/-- On a run whose embedding calls all succeed and whose upserts all succeed,
`processAndStoreChunks` returns the ignore-on-conflict upsert of the records
enriched from the chunks in document order, starting from an empty table. -/
theorem processAndStoreChunks_allOk (hashFn : String → String) {Emb : Type} (env : RunEnv Emb)
    (source modelName : String) (v : Nat → Emb)
    (hv : ∀ k, env.embed k = .ok (v k)) (hu : ∀ b, env.upsert b = none)
    (chunks : List Chunk) :
    processAndStoreChunks hashFn env source modelName chunks =
      .ok (upsertIgnoreDuplicates []
             (enrichFrom hashFn env source modelName chunks.length v 0 chunks)) :=
  runBatchesAux_allOk hashFn env source modelName chunks.length v hv hu
    chunks.length chunks le_rfl [] 0

theorem chunksOf_flatten {α : Type} (n : Nat) :
    ∀ (m : Nat) (l : List α), l.length ≤ m → (chunksOf n l).flatten = l := by
  intro m
  induction m with
  | zero =>
    intro l hl
    have hnil : l = [] := List.length_eq_zero.mp (Nat.le_zero.mp hl)
    subst hnil
    simp [chunksOf]
  | succ m ih =>
    intro l hl
    cases l with
    | nil => simp [chunksOf]
    | cons c cs =>
      have hdrop : (cs.drop (n - 1)).length ≤ m := by
        simp only [List.length_drop]
        simp only [List.length_cons] at hl
        omega
      rw [show chunksOf n (c :: cs) = (c :: cs.take (n - 1)) :: chunksOf n (cs.drop (n - 1))
          from by simp [chunksOf]]
      rw [List.flatten_cons, ih (cs.drop (n - 1)) hdrop]
      simp [List.take_append_drop]

theorem chunksOf_mem_length {α : Type} (n : Nat) (hn : 1 ≤ n) :
    ∀ (m : Nat) (l : List α), l.length ≤ m →
      ∀ b ∈ chunksOf n l, b.length ≤ n := by
  intro m
  induction m with
  | zero =>
    intro l hl b hb
    have hnil : l = [] := List.length_eq_zero.mp (Nat.le_zero.mp hl)
    subst hnil
    simp [chunksOf] at hb
  | succ m ih =>
    intro l hl b hb
    cases l with
    | nil => simp [chunksOf] at hb
    | cons c cs =>
      have hdrop : (cs.drop (n - 1)).length ≤ m := by
        simp only [List.length_drop]
        simp only [List.length_cons] at hl
        omega
      rw [show chunksOf n (c :: cs) = (c :: cs.take (n - 1)) :: chunksOf n (cs.drop (n - 1))
          from by simp [chunksOf]] at hb
      rcases List.mem_cons.mp hb with h | h
      · subst h
        have := List.length_take_le (n - 1) cs
        simp only [List.length_cons]
        omega
      · exact ih (cs.drop (n - 1)) hdrop b h

/-- The records enriched over one run of `processAndStoreChunks` whose
embedding calls return the values `v`. -/
def enrichChunks (hashFn : String → String) {Emb : Type} (env : RunEnv Emb)
    (source modelName : String) (v : Nat → Emb) (chunks : List Chunk) : List (Record Emb) :=
  enrichFrom hashFn env source modelName chunks.length v 0 chunks

theorem embedSubBatch_firstFail (hashFn : String → String) {Emb : Type} (env : RunEnv Emb)
    (source modelName : String) (total : Nat) :
    ∀ (l : List Chunk) (base j : Nat) (e : EmbedErr),
      j < l.length →
      env.embed (base + j) = .error e →
      (∀ j2, j2 < j → ∃ w, env.embed (base + j2) = .ok w) →
      embedSubBatch hashFn env source modelName total base l = .error e := by
  intro l
  induction l with
  | nil =>
    intro base j e hj
    simp at hj
  | cons c cs ih =>
    intro base j e hj hfail hok
    cases j with
    | zero =>
      rw [Nat.add_zero] at hfail
      simp [embedSubBatch, hfail]
    | succ j =>
      obtain ⟨w, hw⟩ := hok 0 (by omega)
      rw [Nat.add_zero] at hw
      have hfail2 : env.embed (base + 1 + j) = .error e := by
        rw [show base + 1 + j = base + (j + 1) from by omega]
        exact hfail
      have hok2 : ∀ j2, j2 < j → ∃ w2, env.embed (base + 1 + j2) = .ok w2 := by
        intro j2 hj2
        obtain ⟨w2, hw2⟩ := hok (j2 + 1) (by omega)
        exact ⟨w2, by rw [show base + 1 + j2 = base + (j2 + 1) from by omega]; exact hw2⟩
      have ihres := ih (base + 1) j e (by simp at hj; omega) hfail2 hok2
      simp [embedSubBatch, hw, ihres]

theorem embedSubBatch_okOf (hashFn : String → String) {Emb : Type} (env : RunEnv Emb)
    (source modelName : String) (total : Nat) :
    ∀ (l : List Chunk) (base : Nat),
      (∀ j2, j2 < l.length → ∃ w, env.embed (base + j2) = .ok w) →
      ∃ rs, embedSubBatch hashFn env source modelName total base l = .ok rs := by
  intro l
  induction l with
  | nil => intro base _; exact ⟨[], rfl⟩
  | cons c cs ih =>
    intro base hok
    obtain ⟨w, hw⟩ := hok 0 (by simp)
    rw [Nat.add_zero] at hw
    obtain ⟨rs, hrs⟩ := ih (base + 1) (fun j2 hj2 => by
      obtain ⟨w2, hw2⟩ := hok (j2 + 1) (by simp; omega)
      exact ⟨w2, by rw [show base + 1 + j2 = base + (j2 + 1) from by omega]; exact hw2⟩)
    exact ⟨enrichRecord hashFn env source modelName total base c w :: rs, by
      simp [embedSubBatch, hw, hrs]⟩

theorem embedBatchGo_okOf (hashFn : String → String) {Emb : Type} (env : RunEnv Emb)
    (source modelName : String) (total : Nat) :
    ∀ (n : Nat) (l : List Chunk), l.length ≤ n → ∀ (i j0 : Nat),
      (∀ j2, j2 < l.length → ∃ w, env.embed (i + j0 + j2) = .ok w) →
      ∃ rs, embedBatchGo hashFn env source modelName total i j0 l = .ok rs := by
  intro n
  induction n with
  | zero =>
    intro l hl i j0 _
    have hnil : l = [] := List.length_eq_zero.mp (Nat.le_zero.mp hl)
    subst hnil
    exact ⟨[], by simp [embedBatchGo]⟩
  | succ n ih =>
    intro l hl i j0 hok
    cases l with
    | nil => exact ⟨[], by simp [embedBatchGo]⟩
    | cons c cs =>
      obtain ⟨rs1, hrs1⟩ := embedSubBatch_okOf hashFn env source modelName total
        ((c :: cs).take subBatchSize) (i + j0) (fun j2 hj2 => by
          refine hok j2 ?_
          rw [List.length_take] at hj2
          simp only [List.length_cons] at hj2 ⊢
          omega)
      have hpos : 1 ≤ subBatchSize := by decide
      have hdrop : ((c :: cs).drop subBatchSize).length ≤ n := by
        simp only [List.length_drop, List.length_cons]
        simp only [List.length_cons] at hl
        omega
      obtain ⟨rs2, hrs2⟩ := ih ((c :: cs).drop subBatchSize) hdrop i (j0 + subBatchSize)
        (fun j2 hj2 => by
          simp only [List.length_drop, List.length_cons] at hj2
          obtain ⟨w2, hw2⟩ := hok (subBatchSize + j2) (by simp; omega)
          exact ⟨w2, by rw [show i + (j0 + subBatchSize) + j2 = i + j0 + (subBatchSize + j2)
            from by omega]; exact hw2⟩)
      exact ⟨rs1 ++ rs2, by simp [embedBatchGo, hrs1, hrs2]⟩

theorem embedBatchGo_firstFail (hashFn : String → String) {Emb : Type} (env : RunEnv Emb)
    (source modelName : String) (total : Nat) :
    ∀ (n : Nat) (l : List Chunk), l.length ≤ n → ∀ (i j0 j : Nat) (e : EmbedErr),
      j < l.length →
      env.embed (i + j0 + j) = .error e →
      (∀ j2, j2 < j → ∃ w, env.embed (i + j0 + j2) = .ok w) →
      embedBatchGo hashFn env source modelName total i j0 l = .error e := by
  intro n
  induction n with
  | zero =>
    intro l hl i j0 j e hj
    have hnil : l = [] := List.length_eq_zero.mp (Nat.le_zero.mp hl)
    subst hnil
    simp at hj
  | succ n ih =>
    intro l hl i j0 j e hj hfail hok
    cases l with
    | nil => simp at hj
    | cons c cs =>
      by_cases hj5 : j < ((c :: cs).take subBatchSize).length
      · have hsub := embedSubBatch_firstFail hashFn env source modelName total
          ((c :: cs).take subBatchSize) (i + j0) j e hj5 hfail hok
        simp [embedBatchGo, hsub]
      · have hpos : 1 ≤ subBatchSize := by decide
        have hcs : subBatchSize ≤ (c :: cs).length := by
          by_contra hcon
          rw [List.length_take] at hj5
          simp only [Nat.not_le] at hcon
          rw [Nat.min_eq_right (by omega)] at hj5
          omega
        have hlen5 : ((c :: cs).take subBatchSize).length = subBatchSize := by
          rw [List.length_take, Nat.min_eq_left hcs]
        have hj5' : subBatchSize ≤ j := by
          rw [hlen5] at hj5
          omega
        obtain ⟨rs1, hrs1⟩ := embedSubBatch_okOf hashFn env source modelName total
          ((c :: cs).take subBatchSize) (i + j0)
          (fun j2 hj2 => hok j2 (by rw [hlen5] at hj2; omega))
        have hdrop : ((c :: cs).drop subBatchSize).length ≤ n := by
          simp only [List.length_drop, List.length_cons]
          simp only [List.length_cons] at hl
          omega
        have hfail2 : env.embed (i + (j0 + subBatchSize) + (j - subBatchSize)) = .error e := by
          rw [show i + (j0 + subBatchSize) + (j - subBatchSize) = i + j0 + j from by omega]
          exact hfail
        have hok2 : ∀ j2, j2 < j - subBatchSize →
            ∃ w, env.embed (i + (j0 + subBatchSize) + j2) = .ok w := by
          intro j2 hj2
          obtain ⟨w2, hw2⟩ := hok (subBatchSize + j2) (by omega)
          exact ⟨w2, by rw [show i + (j0 + subBatchSize) + j2 = i + j0 + (subBatchSize + j2)
            from by omega]; exact hw2⟩
        have hjlen : j - subBatchSize < ((c :: cs).drop subBatchSize).length := by
          simp only [List.length_drop, List.length_cons]
          simp only [List.length_cons] at hj
          omega
        have ihres := ih ((c :: cs).drop subBatchSize) hdrop i (j0 + subBatchSize)
          (j - subBatchSize) e hjlen hfail2 hok2
        simp [embedBatchGo, hrs1, ihres]

/-- Behaviour of one batch whose first embedding failure sits at offset `j`:
the batch is abandoned (its records are never upserted, `state` is untouched);
the run continues with the next batch when the error message carries the
duplicate-key phrase, and aborts with the re-thrown error otherwise. -/
theorem runBatchesAux_embedFail (hashFn : String → String) {Emb : Type} (env : RunEnv Emb)
    (source modelName : String) (total : Nat) (state : List (Record Emb)) (i : Nat)
    (c : Chunk) (cs : List Chunk) (j : Nat) (e : EmbedErr)
    (hj : j < ((c :: cs).take batchSize).length)
    (hfail : env.embed (i + j) = .error e)
    (hok : ∀ j2, j2 < j → ∃ w, env.embed (i + j2) = .ok w) :
    runBatchesAux hashFn env source modelName total state i (c :: cs) =
      if hasDupPhrase e.message then
        runBatchesAux hashFn env source modelName total state (i + batchSize)
          ((c :: cs).drop batchSize)
      else .error (.embedding e.message, state) := by
  have hbatch := embedBatchGo_firstFail hashFn env source modelName total
    ((c :: cs).take batchSize).length ((c :: cs).take batchSize) le_rfl i 0 j e hj
    (by rw [show i + 0 + j = i + j from by omega]; exact hfail)
    (fun j2 hj2 => by
      rw [show i + 0 + j2 = i + j2 from by omega]
      exact hok j2 hj2)
  simp only [runBatchesAux, hbatch]

/-- Behaviour of one batch whose embedding calls all succeed but whose upsert
returns an error: the batch contributes no rows; the run continues with the
next batch exactly when the error is the duplicate-key case (code `23505` at
the inline check, or the duplicate-key phrase at the catch clause), and aborts
with the wrapped store error otherwise. -/
theorem runBatchesAux_upsertErr (hashFn : String → String) {Emb : Type} (env : RunEnv Emb)
    (source modelName : String) (total : Nat) (state : List (Record Emb)) (i : Nat)
    (c : Chunk) (cs : List Chunk) (err : StoreErr)
    (hok : ∀ j2, j2 < ((c :: cs).take batchSize).length → ∃ w, env.embed (i + j2) = .ok w)
    (herr : env.upsert i = some err) :
    runBatchesAux hashFn env source modelName total state i (c :: cs) =
      if isDuplicateViolation err then
        runBatchesAux hashFn env source modelName total state (i + batchSize)
          ((c :: cs).drop batchSize)
      else .error (.storeBatch ("Failed to store batch: " ++ err.message), state) := by
  obtain ⟨rs, hrs⟩ := embedBatchGo_okOf hashFn env source modelName total
    ((c :: cs).take batchSize).length ((c :: cs).take batchSize) le_rfl i 0
    (fun j2 hj2 => by
      rw [show i + 0 + j2 = i + j2 from by omega]
      exact hok j2 hj2)
  simp only [runBatchesAux, hrs, herr]
  cases hc : err.code == "23505" with
  | true => simp [isDuplicateViolation, hc]
  | false =>
    cases hp : hasDupPhrase ("Failed to store batch: " ++ err.message) with
    | true => simp [isDuplicateViolation, hc, hp]
    | false => simp [isDuplicateViolation, hc, hp]

/-! ### Table bootstrap: the existence probe and `createTableIfNotExists` -/

/-- A column of the `CREATE TABLE` statement. -/
structure ColumnSpec where
  name : String
  sqlType : String
  isPrimaryKey : Bool
  isUnique : Bool
deriving DecidableEq, Repr

/-- A `CREATE INDEX` statement (method `btree` stands for the default). -/
structure IndexSpec where
  name : String
  method : String
  column : String
deriving DecidableEq, Repr

/-- The schema objects one call of `createTableIfNotExists` creates. -/
structure TableCreation where
  table : String
  columns : List ColumnSpec
  indexes : List IndexSpec
deriving DecidableEq, Repr

/-- The SQL of `createTableIfNotExists`, as structured data: the six columns
(`chunk_hash TEXT UNIQUE`), the IVFFlat index over `embedding`, and the plain
index over `chunk_hash`. -/
def createTableIfNotExists (tableName : String) : TableCreation :=
  { table := tableName,
    columns :=
      [⟨"id", "BIGSERIAL", true, false⟩,
       ⟨"content", "TEXT", false, false⟩,
       ⟨"embedding", "vector(1536)", false, false⟩,
       ⟨"metadata", "JSONB", false, false⟩,
       ⟨"source", "TEXT", false, false⟩,
       ⟨"chunk_hash", "TEXT", false, true⟩],
    indexes :=
      [⟨tableName ++ "_embedding_idx", "ivfflat", "embedding"⟩,
       ⟨tableName ++ "_chunk_hash_idx", "btree", "chunk_hash"⟩] }

/-- JS truthiness of the probe result `data` from
`.from(tableName).select('id').limit(1)`: `null` is falsy, an array — even
the empty array — is truthy. -/
def probeIsTruthy {Row : Type} (probe : Option (List Row)) : Bool :=
  probe.isSome

/-- How many rows the existence probe returned. -/
def probeRowCount {Row : Type} (probe : Option (List Row)) : Nat :=
  match probe with
  | none => 0
  | some rows => rows.length

/-- The table-bootstrap branch of `loadPdfsToVectorStore`:
`if (!tableExists) { createTableIfNotExists } else { skip }`. -/
def ensureTableStep {Row : Type} (tableName : String) (probe : Option (List Row)) :
    Option TableCreation :=
  if probeIsTruthy probe then none else some (createTableIfNotExists tableName)

/-! ### `searchSimilarContent` -/

/-- Error surfaced by the similarity RPC. -/
structure RpcErr where
  message : String
deriving DecidableEq, Repr

/-- Errors a search call can throw. -/
inductive SearchError where
  | embedding (message : String)
  | rpc (message : String)
deriving DecidableEq, Repr

/-- Environment of one search call: the query-embedding call and the
`match_documents_enhanced` RPC, keyed by query embedding, match threshold,
match count and table name. -/
structure SearchEnv (Emb Row : Type) where
  embedQuery : String → Except EmbedErr Emb
  matchDocumentsEnhanced : Emb → ℚ → Nat → String → Except RpcErr (List Row)

/-- `searchSimilarContent(tableName, query, limit, threshold)`: embed the
query, delegate to the RPC, throw its error unchanged, otherwise return its
rows unchanged — no input validation and no fallback ranking. -/
def searchSimilarContent {Emb Row : Type} (env : SearchEnv Emb Row)
    (tableName query : String) (lim : Nat) (threshold : ℚ) :
    Except SearchError (List Row) :=
  match env.embedQuery query with
  | .error e => .error (.embedding e.message)
  | .ok emb =>
    match env.matchDocumentsEnhanced emb threshold lim tableName with
    | .error e => .error (.rpc e.message)
    | .ok rows => .ok rows

/-- Default `limit = 5` of `searchSimilarContent`. -/
def defaultSearchLimit : Nat := 5

/-- Default `threshold = 0.8` of `searchSimilarContent`. -/
def defaultSearchThreshold : ℚ := 0.8

/-! ### Claims -/

/-- C6: for every source path, `doc_type` equals `reporting_guide` exactly
when the path contains the substring "reporting" case-insensitively (some
infix of the path lowercases to "reporting"), and `release_notes` in every
other case; in particular a path containing "Reporting_Guide.pdf" classifies
as `reporting_guide` and "Release_Notes.pdf" as `release_notes`. -/
theorem c6_docType_caseInsensitive :
    (∀ source : String,
        (docTypeOf source = "reporting_guide" ↔
          ∃ l a b, source.toList = a ++ l ++ b ∧ l.map Char.toLower = "reporting".toList) ∧
        (docTypeOf source = "reporting_guide" ∨ docTypeOf source = "release_notes")) ∧
    docTypeOf "docs/Reporting_Guide.pdf" = "reporting_guide" ∧
    docTypeOf "Release_Notes.pdf" = "release_notes" := by
  refine ⟨?_, by decide, by decide⟩
  intro source
  have hdata : (jsToLowerCase source).toList = source.toList.map Char.toLower := rfl
  cases hcond : containsStr (jsToLowerCase source) "reporting" with
  | true =>
    refine ⟨⟨fun _ => ?_, fun _ => by simp [docTypeOf, hcond]⟩,
      Or.inl (by simp [docTypeOf, hcond])⟩
    have hx := (containsSub_iff "reporting".toList (jsToLowerCase source).toList).mp hcond
    obtain ⟨a, r, har⟩ := hx
    rw [hdata] at har
    obtain ⟨u, v, hsrc, hu, hv⟩ :=
      map_eq_append_split Char.toLower a ("reporting".toList ++ r) source.toList
        (by rw [har]; simp)
    obtain ⟨l, b, hv2, hl, hb⟩ :=
      map_eq_append_split Char.toLower "reporting".toList r v hv
    exact ⟨l, u, b, by rw [hsrc, hv2]; simp, hl⟩
  | false =>
    refine ⟨⟨fun hdoc => ?_, fun hex => ?_⟩, Or.inr (by simp [docTypeOf, hcond])⟩
    · exfalso
      simp [docTypeOf, hcond] at hdoc
    · exfalso
      obtain ⟨l, a, b, hsrc, hl⟩ := hex
      have hc : containsStr (jsToLowerCase source) "reporting" = true := by
        apply (containsSub_iff _ _).mpr
        refine ⟨a.map Char.toLower, b.map Char.toLower, ?_⟩
        rw [hdata, hsrc]
        simp [hl]
      rw [hcond] at hc
      cases hc

/-- C7: `contains_code` is true for any content carrying a fenced code block
(two triple-backtick fences); the detector is exactly the disjunction of the
fixed list of eight heuristic patterns, so plain prose matching none of them
yields false; concrete fenced and prose examples evaluate accordingly. -/
theorem c7_detectCodeSnippet :
    (∀ content : String,
        (∃ a b c, content.toList = a ++ fenceDelim ++ b ++ fenceDelim ++ c) →
          detectCodeSnippet content = true) ∧
    (∀ content : String,
        detectCodeSnippet content = true ↔
          ∃ pat ∈ codeIndicators, pat content.toList = true) ∧
    detectCodeSnippet "See ```run()``` for details." = true ∧
    detectCodeSnippet "Plain prose about reporting dashboards, nothing else." = false := by
  refine ⟨?_, ?_, by decide, by decide⟩
  · intro content hex
    obtain ⟨a, b, c, hdec⟩ := hex
    have hfence : fencedBlockPat content.toList = true := by
      rw [fencedBlockPat]
      apply (scanMatch_iff _ _ _).mpr
      refine ⟨a, b ++ fenceDelim ++ c, by rw [hdec]; simp [List.append_assoc], ?_⟩
      apply (scanMatch_iff _ _ _).mpr
      exact ⟨b, c, rfl, rfl⟩
    simp only [detectCodeSnippet, codeIndicators, List.any_eq_true, List.mem_cons]
    exact ⟨fencedBlockPat, Or.inl rfl, hfence⟩
  · intro content
    simp [detectCodeSnippet, List.any_eq_true]

/-- C2 counterexample: a probe that returns an empty row array — zero rows,
as an existing-but-empty table yields — does NOT trigger table creation
(`!data` is false for a JS array), so "creates if and only if the probe
returns no rows" fails as stated. -/
theorem c2_counterexample :
    probeRowCount (some ([] : List Nat)) = 0 ∧
    ensureTableStep "documents" (some ([] : List Nat)) = none :=
  ⟨rfl, rfl⟩

/-- C2 (amended): creation runs iff the probe result is null (no row array at
all, as when the probed table is missing and the query errors); a returned
array — even an empty one — skips creation with no schema verification. When
creation runs it creates the `vector(1536)` column, the IVFFlat ANN index on
`embedding`, the unique `chunk_hash` column and the `chunk_hash` index. -/
theorem c2_ensureTable_amended {Row : Type} :
    ∀ (tableName : String) (probe : Option (List Row)),
      ((ensureTableStep tableName probe).isSome ↔ probe = none) ∧
      (probe = none →
        ensureTableStep tableName probe = some (createTableIfNotExists tableName) ∧
        (⟨"embedding", "vector(1536)", false, false⟩ : ColumnSpec) ∈
          (createTableIfNotExists tableName).columns ∧
        (⟨"chunk_hash", "TEXT", false, true⟩ : ColumnSpec) ∈
          (createTableIfNotExists tableName).columns ∧
        (⟨tableName ++ "_embedding_idx", "ivfflat", "embedding"⟩ : IndexSpec) ∈
          (createTableIfNotExists tableName).indexes ∧
        (⟨tableName ++ "_chunk_hash_idx", "btree", "chunk_hash"⟩ : IndexSpec) ∈
          (createTableIfNotExists tableName).indexes) := by
  intro tableName probe
  constructor
  · cases probe <;> simp [ensureTableStep, probeIsTruthy]
  · rintro rfl
    refine ⟨rfl, ?_, ?_, ?_, ?_⟩ <;> simp [createTableIfNotExists]

/-- Witness for the amended C2 at the null probe on table `documents`. -/
theorem c2_ensureTable_amended_witness :
    ((ensureTableStep "documents" (none : Option (List Nat))).isSome ↔
        (none : Option (List Nat)) = none) ∧
    (ensureTableStep "documents" (none : Option (List Nat)) =
        some (createTableIfNotExists "documents") ∧
      (⟨"embedding", "vector(1536)", false, false⟩ : ColumnSpec) ∈
        (createTableIfNotExists "documents").columns ∧
      (⟨"chunk_hash", "TEXT", false, true⟩ : ColumnSpec) ∈
        (createTableIfNotExists "documents").columns ∧
      (⟨"documents" ++ "_embedding_idx", "ivfflat", "embedding"⟩ : IndexSpec) ∈
        (createTableIfNotExists "documents").indexes ∧
      (⟨"documents" ++ "_chunk_hash_idx", "btree", "chunk_hash"⟩ : IndexSpec) ∈
        (createTableIfNotExists "documents").indexes) :=
  ⟨(c2_ensureTable_amended "documents" none).1,
   (c2_ensureTable_amended "documents" none).2 rfl⟩

/-- C9: `limit = 0` and `threshold = 1` are passed through without
validation — when the RPC then reports no rows the search returns the empty
sequence, not an error — while an RPC failure propagates to the caller
unchanged, with no fallback ranking. -/
theorem c9_search_edges_and_error {Emb Row : Type} :
    ∀ (env : SearchEnv Emb Row) (tableName query : String) (emb : Emb),
      env.embedQuery query = .ok emb →
      ((env.matchDocumentsEnhanced emb 1 0 tableName = .ok [] →
          searchSimilarContent env tableName query 0 1 = .ok []) ∧
       (∀ (lim : Nat) (threshold : ℚ) (e : RpcErr),
          env.matchDocumentsEnhanced emb threshold lim tableName = .error e →
            searchSimilarContent env tableName query lim threshold =
              .error (.rpc e.message))) := by
  intro env tableName query emb hemb
  constructor
  · intro hrpc
    simp [searchSimilarContent, hemb, hrpc]
  · intro lim threshold e hrpc
    simp [searchSimilarContent, hemb, hrpc]

/-- Search environment for concrete runs: embedding succeeds; the RPC
returns no rows for `limit = 0` and fails otherwise. -/
def c9Env : SearchEnv Nat Nat :=
  { embedQuery := fun _ => .ok 0,
    matchDocumentsEnhanced := fun _ _ lim _ =>
      if lim = 0 then .ok [] else .error ⟨"connection reset"⟩ }

/-- Witness for C9: the `limit = 0`, `threshold = 1` search returns `[]`;
the failing RPC search returns the propagated error. -/
theorem c9_search_witness :
    searchSimilarContent c9Env "documents" "query" 0 1 = .ok [] ∧
    searchSimilarContent c9Env "documents" "query" 3 1 =
      .error (.rpc "connection reset") :=
  ⟨(c9_search_edges_and_error c9Env "documents" "query" 0 rfl).1 rfl,
   (c9_search_edges_and_error c9Env "documents" "query" 0 rfl).2 3 1
     ⟨"connection reset"⟩ rfl⟩

/-- C10: a chunk whose loader metadata lacks a page number (`loc` absent, or
`pageNumber` zero — both falsy in `loc?.pageNumber || absoluteIndex + 1`)
gets `page_number` equal to its absolute index within the document's valid
chunks plus one, and its record is produced without error. -/
theorem c10_pageNumber_fallback (hashFn : String → String) {Emb : Type} (env : RunEnv Emb)
    (source modelName : String) (v : Nat → Emb) (chunks : List Chunk) (k : Nat) (c : Chunk)
    (hk : (validChunks chunks)[k]? = some c)
    (hloc : c.metadata.loc = none ∨ c.metadata.loc = some ⟨0⟩) :
    ∃ r, (enrichChunks hashFn env source modelName v (validChunks chunks))[k]? = some r ∧
      r.metadata.page_number = k + 1 := by
  refine ⟨enrichRecord hashFn env source modelName (validChunks chunks).length
    (0 + k) c (v (0 + k)), ?_, ?_⟩
  · rw [enrichChunks, enrichFrom_getElem?, hk]
    rfl
  · show pageNumberOf c.metadata (0 + k) = k + 1
    rcases hloc with h | h <;> simp [pageNumberOf, h]

/-- A run environment whose collaborator calls all succeed. -/
def okEnv : RunEnv Nat :=
  { clock := fun _ => 0,
    randHex := fun _ => "aa",
    isoNow := fun _ => "2024-01-01T00:00:00.000Z",
    embed := fun _ => .ok 0,
    upsert := fun _ => none }

/-- Witness for C10 at a one-chunk document whose chunk has no `loc`. -/
theorem c10_pageNumber_fallback_witness :
    (validChunks [⟨"hello", ⟨none⟩⟩])[0]? = some (⟨"hello", ⟨none⟩⟩ : Chunk) ∧
    ((⟨"hello", ⟨none⟩⟩ : Chunk).metadata.loc = none ∨
      (⟨"hello", ⟨none⟩⟩ : Chunk).metadata.loc = some ⟨0⟩) ∧
    ∃ r, (enrichChunks (fun s => s) okEnv "guide.pdf" "text-embedding-ada-002"
            (fun _ => 0) (validChunks [⟨"hello", ⟨none⟩⟩]))[0]? = some r ∧
      r.metadata.page_number = 0 + 1 :=
  ⟨by decide, Or.inl rfl,
   c10_pageNumber_fallback (fun s => s) okEnv "guide.pdf" "text-embedding-ada-002"
     (fun _ => 0) [⟨"hello", ⟨none⟩⟩] 0 ⟨"hello", ⟨none⟩⟩ (by decide) (Or.inl rfl)⟩

/-- A string of length zero is the empty string. -/
theorem string_eq_empty_of_length_eq_zero : ∀ s : String, s.length = 0 → s = "" := by
  intro s hs
  cases s with
  | mk data =>
    cases data with
    | nil => rfl
    | cons a as => simp [String.length] at hs

/-- C5: a chunk is kept exactly when its trimmed text is non-empty; dropping
the empty chunks raises no error (the run still succeeds); and the
`total_chunks` field of every enriched and every stored record equals the
number of valid chunks, not the pre-filter count. -/
theorem c5_emptyChunks_totalChunks (hashFn : String → String) {Emb : Type}
    (env : RunEnv Emb) (source modelName : String) (v : Nat → Emb)
    (hv : ∀ k, env.embed k = .ok (v k)) (hu : ∀ b, env.upsert b = none)
    (rawChunks : List Chunk) :
    (∀ c : Chunk, isValidChunk c = true ↔ jsTrim c.pageContent ≠ "") ∧
    validChunks rawChunks = rawChunks.filter isValidChunk ∧
    loadOneDoc hashFn env source modelName rawChunks =
      .ok (upsertIgnoreDuplicates []
        (enrichChunks hashFn env source modelName v (validChunks rawChunks))) ∧
    (∀ r ∈ enrichChunks hashFn env source modelName v (validChunks rawChunks),
        r.metadata.total_chunks = (validChunks rawChunks).length) ∧
    (∀ r ∈ upsertIgnoreDuplicates []
        (enrichChunks hashFn env source modelName v (validChunks rawChunks)),
        r.metadata.total_chunks = (validChunks rawChunks).length) := by
  have htot : ∀ r ∈ enrichChunks hashFn env source modelName v (validChunks rawChunks),
      r.metadata.total_chunks = (validChunks rawChunks).length := by
    intro r hr
    exact mem_enrichFrom_total hashFn env source modelName _ v 0 _ r hr
  refine ⟨?_, rfl, ?_, htot, ?_⟩
  · intro c
    rw [isValidChunk, Bool.not_eq_true', Bool.or_eq_false_iff]
    constructor
    · rintro ⟨h1, h2⟩ he
      rw [he] at h2
      exact absurd h2 (by decide)
    · intro h
      constructor
      · rw [beq_eq_false_iff_ne]
        intro hc
        exact h (by rw [hc]; rfl)
      · rw [beq_eq_false_iff_ne]
        intro hlen
        exact h (string_eq_empty_of_length_eq_zero _ hlen)
  · exact processAndStoreChunks_allOk hashFn env source modelName v hv hu
      (validChunks rawChunks)
  · intro r hr
    rcases mem_upsertIgnoreDuplicates _ [] r hr with h | h
    · cases h
    · exact htot r h

/-- Witness for C5: a two-chunk document whose second chunk is whitespace
only; on the all-success environment the run returns the stored rows. -/
theorem c5_witness :
    (∀ k, okEnv.embed k = Except.ok 0) ∧
    (∀ b, okEnv.upsert b = none) ∧
    loadOneDoc (fun s => s) okEnv "guide.pdf" "text-embedding-ada-002"
        [⟨"hello", ⟨none⟩⟩, ⟨"   ", ⟨some ⟨2⟩⟩⟩] =
      .ok (upsertIgnoreDuplicates []
        (enrichChunks (fun s => s) okEnv "guide.pdf" "text-embedding-ada-002" (fun _ => 0)
          (validChunks [⟨"hello", ⟨none⟩⟩, ⟨"   ", ⟨some ⟨2⟩⟩⟩]))) :=
  ⟨fun _ => rfl, fun _ => rfl,
   (c5_emptyChunks_totalChunks (fun s => s) okEnv "guide.pdf" "text-embedding-ada-002"
      (fun _ => 0) (fun _ => rfl) (fun _ => rfl)
      [⟨"hello", ⟨none⟩⟩, ⟨"   ", ⟨some ⟨2⟩⟩⟩]).2.2.1⟩

/-- C8: the writer consumes the chunk list in consecutive batches of at most
20, each split into sub-batches of at most 5, covering every chunk exactly
once in document order; on an all-success run the store receives exactly the
records enriched from the chunks in order, `chunk_index` equal to position. -/
theorem c8_batching_and_order (hashFn : String → String) {Emb : Type}
    (env : RunEnv Emb) (source modelName : String) (v : Nat → Emb)
    (hv : ∀ k, env.embed k = .ok (v k)) (hu : ∀ b, env.upsert b = none)
    (chunks : List Chunk) :
    (chunksOf batchSize chunks).flatten = chunks ∧
    (∀ b ∈ chunksOf batchSize chunks,
        b.length ≤ batchSize ∧ (chunksOf subBatchSize b).flatten = b ∧
        ∀ sb ∈ chunksOf subBatchSize b, sb.length ≤ subBatchSize) ∧
    processAndStoreChunks hashFn env source modelName chunks =
      .ok (upsertIgnoreDuplicates [] (enrichChunks hashFn env source modelName v chunks)) ∧
    (enrichChunks hashFn env source modelName v chunks).length = chunks.length ∧
    (∀ (k : Nat) (c : Chunk), chunks[k]? = some c →
        ∃ r, (enrichChunks hashFn env source modelName v chunks)[k]? = some r ∧
          r.metadata.chunk_index = k ∧ r.content = c.pageContent) := by
  refine ⟨chunksOf_flatten batchSize chunks.length chunks le_rfl, ?_,
    processAndStoreChunks_allOk hashFn env source modelName v hv hu chunks,
    enrichFrom_length hashFn env source modelName chunks.length v 0 chunks, ?_⟩
  · intro b hb
    refine ⟨chunksOf_mem_length batchSize (by decide) chunks.length chunks le_rfl b hb,
      chunksOf_flatten subBatchSize b.length b le_rfl, ?_⟩
    intro sb hsb
    exact chunksOf_mem_length subBatchSize (by decide) b.length b le_rfl sb hsb
  · intro k c hk
    refine ⟨enrichRecord hashFn env source modelName chunks.length (0 + k) c (v (0 + k)),
      ?_, ?_, rfl⟩
    · rw [enrichChunks, enrichFrom_getElem?, hk]
      rfl
    · show (enrichMeta hashFn env source modelName chunks.length (0 + k) c).chunk_index = k
      simp [enrichMeta]

/-- Witness for C8 at a three-chunk document on the all-success environment. -/
theorem c8_witness :
    (∀ k, okEnv.embed k = Except.ok 0) ∧
    processAndStoreChunks (fun s => s) okEnv "guide.pdf" "text-embedding-ada-002"
        [⟨"a", ⟨none⟩⟩, ⟨"b", ⟨none⟩⟩, ⟨"c", ⟨none⟩⟩] =
      .ok (upsertIgnoreDuplicates []
        (enrichChunks (fun s => s) okEnv "guide.pdf" "text-embedding-ada-002" (fun _ => 0)
          [⟨"a", ⟨none⟩⟩, ⟨"b", ⟨none⟩⟩, ⟨"c", ⟨none⟩⟩])) :=
  ⟨fun _ => rfl,
   (c8_batching_and_order (fun s => s) okEnv "guide.pdf" "text-embedding-ada-002"
      (fun _ => 0) (fun _ => rfl) (fun _ => rfl)
      [⟨"a", ⟨none⟩⟩, ⟨"b", ⟨none⟩⟩, ⟨"c", ⟨none⟩⟩]).2.2.1⟩

/-- Environment of the C1 counterexample: the millisecond clock has advanced
by the time the second sub-batch is enriched — which the fixed 500 ms sleep
between sub-batches guarantees on a real run — and every collaborator call
succeeds. -/
def c1Env : RunEnv Nat :=
  { clock := fun k => if k < subBatchSize then 1000 else 1500,
    randHex := fun _ => "aa",
    isoNow := fun _ => "2024-01-01T00:00:00.000Z",
    embed := fun _ => .ok 0,
    upsert := fun _ => none }

/-- Six identical chunks: they span two sub-batches of one batch. -/
def c1Chunks : List Chunk :=
  List.replicate 6 ⟨"alpha", ⟨none⟩⟩

/-- C1 counterexample: `Date.now()` is sampled inside the per-chunk map, so
on a run where the clock advances between sub-batches there is NO single
per-run timestamp `T` with every chunk's hash equal to the digest of
content ++ T — chunk 0 is hashed from "alpha" ++ "1000" while chunk 5 is
hashed from "alpha" ++ "1500" (digest modelled by the identity). -/
theorem c1_counterexample :
    ¬ ∃ T : Nat,
        ∀ r ∈ enrichChunks (fun s => s) c1Env "guide.pdf" "text-embedding-ada-002"
            (fun _ => 0) c1Chunks,
          r.chunk_hash = "alpha" ++ toString T := by
  rintro ⟨T, hT⟩
  have h0 := hT (List.get (enrichChunks (fun s => s) c1Env "guide.pdf"
      "text-embedding-ada-002" (fun _ => 0) c1Chunks) ⟨0, by decide⟩) (List.get_mem _ _ _)
  have h5 := hT (List.get (enrichChunks (fun s => s) c1Env "guide.pdf"
      "text-embedding-ada-002" (fun _ => 0) c1Chunks) ⟨5, by decide⟩) (List.get_mem _ _ _)
  have e0 : (List.get (enrichChunks (fun s => s) c1Env "guide.pdf"
      "text-embedding-ada-002" (fun _ => 0) c1Chunks)
        ⟨0, by decide⟩).chunk_hash = "alpha1000" := by decide
  have e5 : (List.get (enrichChunks (fun s => s) c1Env "guide.pdf"
      "text-embedding-ada-002" (fun _ => 0) c1Chunks)
        ⟨5, by decide⟩).chunk_hash = "alpha1500" := by decide
  rw [e0] at h0
  rw [e5] at h5
  have hcontr : ("alpha1000" : String) = "alpha1500" := h0.trans h5.symm
  exact absurd hcontr (by decide)

/-- C1 (amended): for every run, chunk and digest function, the chunk's
`chunk_hash` (both the row field and its metadata copy) is the digest of the
chunk's content concatenated with a PER-CHUNK timestamp — the clock value at
that chunk's own enrichment — not a shared per-run timestamp. -/
theorem c1_perChunkTimestamp_amended (hashFn : String → String) {Emb : Type}
    (env : RunEnv Emb) (source modelName : String) (v : Nat → Emb)
    (chunks : List Chunk) (k : Nat) (c : Chunk) (hk : chunks[k]? = some c) :
    ∃ r, (enrichChunks hashFn env source modelName v chunks)[k]? = some r ∧
      r.chunk_hash = hashFn (c.pageContent ++ toString (env.clock k)) ∧
      r.metadata.chunk_hash = r.chunk_hash := by
  refine ⟨enrichRecord hashFn env source modelName chunks.length (0 + k) c (v (0 + k)),
    ?_, ?_, rfl⟩
  · rw [enrichChunks, enrichFrom_getElem?, hk]
    rfl
  · show (enrichMeta hashFn env source modelName chunks.length (0 + k) c).chunk_hash =
      hashFn (c.pageContent ++ toString (env.clock k))
    simp [enrichMeta]

/-- Witness for the amended C1 at chunk 5 of the counterexample run: its hash
suffix is that chunk's own clock value 1500. -/
theorem c1_perChunkTimestamp_witness :
    c1Chunks[5]? = some (⟨"alpha", ⟨none⟩⟩ : Chunk) ∧
    ∃ r, (enrichChunks (fun s => s) c1Env "guide.pdf" "text-embedding-ada-002"
        (fun _ => 0) c1Chunks)[5]? = some r ∧
      r.chunk_hash = (fun s => s) ("alpha" ++ toString (c1Env.clock 5)) ∧
      r.metadata.chunk_hash = r.chunk_hash :=
  ⟨by decide,
   c1_perChunkTimestamp_amended (fun s => s) c1Env "guide.pdf" "text-embedding-ada-002"
     (fun _ => 0) c1Chunks 5 ⟨"alpha", ⟨none⟩⟩ (by decide)⟩

/-- C3: within one run, records sharing a `chunk_hash` produce exactly one
stored row and existing rows are never overwritten (ignore-on-conflict); a
duplicate-key violation surfaced by the store on a batch write — code 23505
at the inline check or the duplicate-key phrase in the thrown message at the
catch clause — is non-fatal and only skips the current batch, processing
continuing at the next batch; any other write failure aborts the run with
the wrapped store error, the rows stored so far left in place. -/
theorem c3_dedup_and_writeErrors (hashFn : String → String) {Emb : Type}
    (env : RunEnv Emb) (source modelName : String) (total : Nat) :
    (∀ (store batch : List (Record Emb)) (h : String),
        countHash h store = 0 →
        (∃ r ∈ batch, r.chunk_hash = h) →
        countHash h (upsertIgnoreDuplicates store batch) = 1) ∧
    (∀ (store batch : List (Record Emb)),
        ∃ added, upsertIgnoreDuplicates store batch = store ++ added) ∧
    (∀ (state : List (Record Emb)) (i : Nat) (c : Chunk) (cs : List Chunk) (err : StoreErr),
        (∀ j2, j2 < ((c :: cs).take batchSize).length → ∃ w, env.embed (i + j2) = .ok w) →
        env.upsert i = some err →
        (isDuplicateViolation err = true →
          runBatchesAux hashFn env source modelName total state i (c :: cs) =
            runBatchesAux hashFn env source modelName total state (i + batchSize)
              ((c :: cs).drop batchSize)) ∧
        (isDuplicateViolation err = false →
          runBatchesAux hashFn env source modelName total state i (c :: cs) =
            .error (.storeBatch ("Failed to store batch: " ++ err.message), state))) := by
  refine ⟨?_, ?_, ?_⟩
  · intro store batch h hs0 hex
    rw [upsertIgnoreDuplicates_countHash]
    have hnotpos : ¬ 0 < countHash h store := by omega
    rw [if_neg hnotpos]
    obtain ⟨r, hr, hrh⟩ := hex
    have hany : batch.any (fun r => r.chunk_hash == h) = true :=
      List.any_eq_true.mpr ⟨r, hr, by simp [hrh]⟩
    rw [if_pos hany]
  · intro store batch
    exact upsertIgnoreDuplicates_suffix batch store
  · intro state i c cs err hok herr
    have hstep := runBatchesAux_upsertErr hashFn env source modelName total state i c cs err
      hok herr
    constructor
    · intro hdup
      rw [hstep, if_pos hdup]
    · intro hdup
      rw [hstep, if_neg (by rw [hdup]; exact fun hcontr => (Bool.false_ne_true hcontr))]

/-- Environment whose upserts report a unique-constraint violation. -/
def c3DupEnv : RunEnv Nat :=
  { clock := fun _ => 0,
    randHex := fun _ => "aa",
    isoNow := fun _ => "2024-01-01T00:00:00.000Z",
    embed := fun _ => .ok 0,
    upsert := fun _ => some ⟨"23505", "duplicate key value violates unique constraint"⟩ }

/-- A concrete enriched record used by the C3 witness. -/
def rA : Record Nat :=
  enrichRecord (fun s => s) okEnv "guide.pdf" "text-embedding-ada-002" 1 0 ⟨"alpha", ⟨none⟩⟩ 0

/-- Witness for C3: upserting two records with the identical hash stores one
row; a 23505 upsert error on the first batch makes the run continue with the
next batch, the table untouched. -/
theorem c3_dedup_and_writeErrors_witness :
    countHash rA.chunk_hash ([] : List (Record Nat)) = 0 ∧
    (∃ r ∈ [rA, rA], r.chunk_hash = rA.chunk_hash) ∧
    countHash rA.chunk_hash (upsertIgnoreDuplicates [] [rA, rA]) = 1 ∧
    c3DupEnv.upsert 0 = some ⟨"23505", "duplicate key value violates unique constraint"⟩ ∧
    runBatchesAux (fun s => s) c3DupEnv "guide.pdf" "text-embedding-ada-002" 1 [] 0
        [⟨"alpha", ⟨none⟩⟩] =
      runBatchesAux (fun s => s) c3DupEnv "guide.pdf" "text-embedding-ada-002" 1 []
        (0 + batchSize) ([(⟨"alpha", ⟨none⟩⟩ : Chunk)].drop batchSize) :=
  ⟨rfl, ⟨rA, by simp, rfl⟩,
   (c3_dedup_and_writeErrors (fun s => s) okEnv "guide.pdf" "text-embedding-ada-002" 1).1
     [] [rA, rA] rA.chunk_hash rfl ⟨rA, by simp, rfl⟩,
   rfl,
   ((c3_dedup_and_writeErrors (fun s => s) c3DupEnv "guide.pdf" "text-embedding-ada-002" 1).2.2
     [] 0 ⟨"alpha", ⟨none⟩⟩ [] ⟨"23505", "duplicate key value violates unique constraint"⟩
     (fun j2 _ => ⟨0, rfl⟩) rfl).1 (by decide)⟩

/-- Environment whose first embedding call fails with a message that happens
to carry the duplicate-key phrase. -/
def c4Env : RunEnv Nat :=
  { clock := fun _ => 0,
    randHex := fun _ => "aa",
    isoNow := fun _ => "2024-01-01T00:00:00.000Z",
    embed := fun _ => .error ⟨"duplicate key value"⟩,
    upsert := fun _ => none }

/-- C4 counterexample: an embedding failure whose message contains
"duplicate key value" is swallowed by the catch clause — the run finishes
with `ok` (nothing stored) instead of propagating a fatal error. -/
theorem c4_counterexample :
    c4Env.embed 0 = .error ⟨"duplicate key value"⟩ ∧
    processAndStoreChunks (fun s => s) c4Env "guide.pdf" "text-embedding-ada-002"
        [⟨"alpha", ⟨none⟩⟩] = .ok [] := by
  refine ⟨rfl, ?_⟩
  have hstep := runBatchesAux_embedFail (fun s => s) c4Env "guide.pdf"
    "text-embedding-ada-002" 1 [] 0 ⟨"alpha", ⟨none⟩⟩ [] 0 ⟨"duplicate key value"⟩
    (by decide) rfl (fun j2 h2 => absurd h2 (by omega))
  show runBatchesAux (fun s => s) c4Env "guide.pdf" "text-embedding-ada-002" 1 [] 0
      [⟨"alpha", ⟨none⟩⟩] = .ok []
  rw [hstep, if_pos (by decide),
    show List.drop batchSize [(⟨"alpha", ⟨none⟩⟩ : Chunk)] = [] from by decide]
  simp [runBatchesAux]

/-- C4 (amended): when an embedding call of the current batch fails (first
failure at offset `j`), the enclosing batch is aborted — it contributes no
rows and the rows already stored (`state`) are untouched, with no per-chunk
retry — and the failure propagates as a fatal run abort carrying `state`
unchanged, unless its message contains the duplicate-key phrase, in which
case the batch is skipped and processing continues at the next batch. -/
theorem c4_embedFailure_amended (hashFn : String → String) {Emb : Type}
    (env : RunEnv Emb) (source modelName : String) (total : Nat)
    (state : List (Record Emb)) (i : Nat) (c : Chunk) (cs : List Chunk)
    (j : Nat) (e : EmbedErr)
    (hj : j < ((c :: cs).take batchSize).length)
    (hfail : env.embed (i + j) = .error e)
    (hok : ∀ j2, j2 < j → ∃ w, env.embed (i + j2) = .ok w) :
    (hasDupPhrase e.message = false →
      runBatchesAux hashFn env source modelName total state i (c :: cs) =
        .error (.embedding e.message, state)) ∧
    (hasDupPhrase e.message = true →
      runBatchesAux hashFn env source modelName total state i (c :: cs) =
        runBatchesAux hashFn env source modelName total state (i + batchSize)
          ((c :: cs).drop batchSize)) := by
  have hstep := runBatchesAux_embedFail hashFn env source modelName total state i c cs j e
    hj hfail hok
  constructor
  · intro hd
    rw [hstep, if_neg (by rw [hd]; exact fun hcontr => (Bool.false_ne_true hcontr))]
  · intro hd
    rw [hstep, if_pos hd]

/-- Environment whose first embedding call fails with an ordinary provider
message. -/
def c4FatalEnv : RunEnv Nat :=
  { clock := fun _ => 0,
    randHex := fun _ => "aa",
    isoNow := fun _ => "2024-01-01T00:00:00.000Z",
    embed := fun _ => .error ⟨"rate limit exceeded"⟩,
    upsert := fun _ => none }

/-- Witness for the amended C4: an ordinary embedding failure aborts the run
with the re-thrown error, the (empty) table state carried unchanged. -/
theorem c4_embedFailure_witness :
    c4FatalEnv.embed (0 + 0) = .error ⟨"rate limit exceeded"⟩ ∧
    runBatchesAux (fun s => s) c4FatalEnv "guide.pdf" "text-embedding-ada-002" 1 [] 0
        [⟨"alpha", ⟨none⟩⟩] =
      .error (.embedding "rate limit exceeded", []) :=
  ⟨rfl,
   (c4_embedFailure_amended (fun s => s) c4FatalEnv "guide.pdf" "text-embedding-ada-002"
      1 [] 0 ⟨"alpha", ⟨none⟩⟩ [] 0 ⟨"rate limit exceeded"⟩ (by decide) rfl
      (fun j2 h2 => absurd h2 (by omega))).1 (by decide)⟩

/-- Witness for C6 at the reporting-guide path. -/
theorem c6_docType_witness :
    docTypeOf "docs/Reporting_Guide.pdf" = "reporting_guide" ∨
      docTypeOf "docs/Reporting_Guide.pdf" = "release_notes" :=
  (c6_docType_caseInsensitive.1 "docs/Reporting_Guide.pdf").2

/-- Witness for C7 at a content with one fenced code block. -/
theorem c7_detectCode_witness :
    (∃ a b c, ("begin ```x``` end" : String).toList =
        a ++ fenceDelim ++ b ++ fenceDelim ++ c) ∧
    detectCodeSnippet "begin ```x``` end" = true :=
  ⟨⟨"begin ".toList, "x".toList, " end".toList, by decide⟩,
   c7_detectCodeSnippet.1 "begin ```x``` end"
     ⟨"begin ".toList, "x".toList, " end".toList, by decide⟩⟩

end PdfVectorLoader

